import Mathlib

/-
Verification development for the metco metrics daemon.

This file shallowly embeds the data model and operations of
`src/metrics.rs` and `src/protocol.rs`:

* machine integers are modelled as `Nat` / `Int` with explicit bounds
  (`U64_MOD`, `I64_MIN`, `I64_MAX`); checked arithmetic returns `Option`;
* Rust `HashMap`s are modelled as association lists with unique-key
  operations (`alLookup`, `alInsert`, `alRemove`); iteration order is the
  list order, which is irrelevant for the properties proved here because
  keys are unique;
* Rust panics (assertion failures, out-of-bounds indexing) are modelled
  as `none` / a dedicated `panicked` constructor;
* `f64` quantities (`average`, `median`, `std`, the percentile index
  computation) are modelled over `ℚ`.  The source's `std` applies
  `powf(0.5)` at the end; we keep the exactly-representable sum of
  squared deviations `stdSq` (its square root is determined by it, and
  every claim about `std` factors through `stdSq`).
-/

/-- Timer resolution of a timing sample (`TimerResolution` in `metrics.rs`). -/
inductive TimerResolution where
  | seconds
  | milliSeconds
  | microSeconds
  | nanoSeconds
deriving DecidableEq, Repr

/-- Gauge operation (`GaugeOperation` in `metrics.rs`); `i64` values are `Int`s. -/
inductive GaugeOperation where
  | set (v : Int)
  | modify (v : Int)
  | remove
deriving DecidableEq, Repr

/-- Metric kind (`MetricKind` in `metrics.rs`); `u64` values are `Nat`s. -/
inductive MetricKind where
  | counter (v : Nat)
  | timing (v : Nat) (r : TimerResolution)
  | gauge (op : GaugeOperation)
deriving DecidableEq, Repr

/-- A named metric event (`Metric` in `metrics.rs`). -/
structure Metric where
  name : String
  kind : MetricKind
deriving DecidableEq, Repr

/-- Modulus of `u64` arithmetic. -/
def U64_MOD : Nat := 2 ^ 64

/-- Smallest `i64` value. -/
def I64_MIN : Int := -(2 ^ 63)

/-- Largest `i64` value. -/
def I64_MAX : Int := 2 ^ 63 - 1

/-- The integer `x` is representable as an `i64`. -/
def inI64 (x : Int) : Prop := I64_MIN ≤ x ∧ x ≤ I64_MAX

instance (x : Int) : Decidable (inI64 x) := by
  unfold inI64; infer_instance

/-- Model of `i64::checked_add`: `some` of the mathematical sum when it is
representable as an `i64`, `none` otherwise. -/
def checkedAddI64 (a b : Int) : Option Int :=
  if inI64 (a + b) then some (a + b) else none

/-- Lookup in an association-list model of a `HashMap` (first matching key). -/
def alLookup {α : Type} : List (String × α) → String → Option α
  | [], _ => none
  | (k, v) :: rest, key => if k = key then some v else alLookup rest key

/-- Insert into an association-list model of a `HashMap`: replace the first
binding of the key in place, or append a new binding at the end. -/
def alInsert {α : Type} : List (String × α) → String → α → List (String × α)
  | [], key, v => [(key, v)]
  | (k, w) :: rest, key, v =>
      if k = key then (key, v) :: rest else (k, w) :: alInsert rest key v

/-- Remove from an association-list model of a `HashMap` (first matching key;
maps built by the operations below have unique keys). -/
def alRemove {α : Type} : List (String × α) → String → List (String × α)
  | [], _ => []
  | (k, w) :: rest, key => if k = key then rest else (k, w) :: alRemove rest key

/-- A finalized sample bucket (`Statistics` in `metrics.rs`).  `list` is the
sorted sample list, `sum` the checked `u64` total; `stdSq` is the sum of
squared deviations accumulated by the source's fold (the source stores its
square root as `std : f64`). -/
structure Statistics where
  list : List Nat
  sum : Nat
  stdSq : ℚ
deriving DecidableEq, Repr

/-- The `for item in &list { sum.checked_add(*item) }` loop of
`Statistics::new`: fold of checked `u64` addition, `none` on overflow. -/
def checkedSum : Nat → List Nat → Option Nat
  | acc, [] => some acc
  | acc, x :: xs => if acc + x < U64_MOD then checkedSum (acc + x) xs else none

/-- The squared-deviation fold of `Statistics::new`
(`fold(0., |acc, item| acc + (*item as f64 - avg).powf(2.))`). -/
def sqDevSum (l : List Nat) (avg : ℚ) : ℚ :=
  l.foldl (fun acc x => acc + ((x : ℚ) - avg) ^ 2) 0

/-- Outcome of `Statistics::new`: `ok`, `Err(())` on sum overflow
(`overflowErr`), or a panic of the `assert!(!list.is_empty())` guard
(`panicked`). -/
inductive StatResult where
  | ok (s : Statistics)
  | overflowErr
  | panicked
deriving DecidableEq, Repr

/-- Model of `Statistics::new`: assert non-emptiness, sort, sum with checked
addition (failing with `Err(())` on overflow), precompute the deviation fold.
Rust's `list.sort()` sorts ascending; on `u64` the ascending reordering of a
list is unique (`≤` is total and antisymmetric), so `List.insertionSort`
computes exactly the source's sorted list. -/
def statisticsNew (l : List Nat) : StatResult :=
  if l = [] then .panicked
  else
    let sorted := l.insertionSort (· ≤ ·)
    match checkedSum 0 sorted with
    | none => .overflowErr
    | some s =>
        let avg : ℚ := (s : ℚ) / (sorted.length : ℚ)
        .ok { list := sorted, sum := s, stdSq := sqDevSum sorted avg }

/-- Model of `Statistics::count`. -/
def Statistics.count (s : Statistics) : Nat := s.list.length

/-- Model of `Statistics::average` (`sum as f64 / len as f64`, over `ℚ`). -/
def Statistics.average (s : Statistics) : ℚ := (s.sum : ℚ) / (s.count : ℚ)

/-- Model of `Statistics::median`; the source's indices are in bounds for the
non-empty stored list, `getD _ 0` stands for that in-bounds indexing. -/
def Statistics.median (s : Statistics) : ℚ :=
  let len := s.list.length
  if len % 2 = 0 then
    ((s.list.getD (len / 2 - 1) 0 : ℚ) + (s.list.getD (len / 2) 0 : ℚ)) / 2
  else
    (s.list.getD (len / 2) 0 : ℚ)

/-- Model of `Statistics::percentile`: clamp `p` to `[0,1]` (`p.max(0.).min(1.)`),
take `idx = ⌊len · p⌋ as usize` (the cast saturates below at 0), clamp with
`.min(self.list.len())` — exactly as written in the source, *not* `len - 1` —
and index the list.  `none` models the out-of-bounds panic of `self.list[idx]`. -/
def Statistics.percentile (s : Statistics) (p : ℚ) : Option Nat :=
  let clamped := min (max p 0) 1
  let idx : Nat := min (Int.toNat ⌊(s.list.length : ℚ) * clamped⌋) s.list.length
  s.list.get? idx

/-- The mutable accumulator (`Registry` in `metrics.rs`). -/
structure Registry where
  counters : List (String × List Nat)
  gauges : List (String × Int)
  timings : List (String × List Nat)
deriving DecidableEq, Repr

/-- `Registry::default()`: all three maps empty. -/
def Registry.emptyReg : Registry := ⟨[], [], []⟩

/-- Model of `map.entry(name).or_default().push(v)` on a sample map. -/
def pushSample (m : List (String × List Nat)) (name : String) (v : Nat) :
    List (String × List Nat) :=
  alInsert m name ((alLookup m name).getD [] ++ [v])

/-- Nanosecond factor of a timer resolution (the `match resolution` table in
`Registry::add`). -/
def nsFactor : TimerResolution → Nat
  | .seconds => 1000000000
  | .milliSeconds => 1000000
  | .microSeconds => 1000
  | .nanoSeconds => 1

/-- Model of `Registry::add`.  The timing branch multiplies in `u64` with the
source's unchecked `*` (wrapping, `% U64_MOD`; a debug build would panic
instead — either way the source never reports timing overflow).  The
`Gauge(Modify)` branch reproduces `entry(name).or_default()` (which inserts a
`0` binding when the key is absent, *before* the checked add) followed by
`checked_add`, returning `false` and leaving the value in place on overflow. -/
def Registry.add (r : Registry) (m : Metric) : Registry × Bool :=
  match m.kind with
  | .counter v => ({ r with counters := pushSample r.counters m.name v }, true)
  | .timing v res =>
      ({ r with timings := pushSample r.timings m.name ((v * nsFactor res) % U64_MOD) }, true)
  | .gauge op =>
      match op with
      | .set v => ({ r with gauges := alInsert r.gauges m.name v }, true)
      | .modify d =>
          let g0 : Int := (alLookup r.gauges m.name).getD 0
          let g1 := alInsert r.gauges m.name g0
          match checkedAddI64 g0 d with
          | none => ({ r with gauges := g1 }, false)
          | some res => ({ r with gauges := alInsert g1 m.name res }, true)
      | .remove => ({ r with gauges := alRemove r.gauges m.name }, true)

/-- Model of `Registry::new_with_gauges`. -/
def Registry.newWithGauges (r : Registry) : Registry :=
  { counters := [], gauges := r.gauges, timings := [] }

/-- The immutable snapshot (`TimeFrame` in `metrics.rs`). -/
structure TimeFrame where
  counters : List (String × Statistics)
  gauges : List (String × Int)
  timings : List (String × Statistics)
deriving DecidableEq, Repr

/-- The fold of `TimeFrame::try_from` over one sample map: build `Statistics`
for each series, skip a series whose sum overflows, propagate the panic of
`Statistics::new` on an empty series (`none`). -/
def buildStatsGo : List (String × Statistics) → List (String × List Nat) →
    Option (List (String × Statistics))
  | acc, [] => some acc
  | acc, (name, l) :: rest =>
      match statisticsNew l with
      | .panicked => none
      | .overflowErr => buildStatsGo acc rest
      | .ok s => buildStatsGo (alInsert acc name s) rest

/-- The fold of `TimeFrame::try_from`, started from the empty map. -/
def buildStats (entries : List (String × List Nat)) :
    Option (List (String × Statistics)) :=
  buildStatsGo [] entries

/-- Model of `TimeFrame::try_from`.  The source's `try_from` always returns
`Ok` (its error type is never produced); `none` here models only the panic of
`Statistics::new` on an empty series inside the folds. -/
def TimeFrame.tryFrom (r : Registry) : Option TimeFrame :=
  match buildStats r.counters, buildStats r.timings with
  | some cs, some ts => some { counters := cs, gauges := r.gauges, timings := ts }
  | _, _ => none

/-- Model of `Registry::finalize` (`TimeFrame::try_from(self).ok()`). -/
def Registry.finalize (r : Registry) : Option TimeFrame := TimeFrame.tryFrom r

/-
Protocol parser (`src/protocol.rs`), an embedding of the nom 7 combinators
the source instantiates.  A parser maps a `List Char` input to
`Option (rest, output)`; `none` is a nom `Error`.  No combinator used by the
source produces a nom `Failure`, so `Option` captures the error discipline.
-/

/-- nom `tag`: match a literal, return it, consume it. -/
def tagP (s : List Char) (input : List Char) : Option (List Char × List Char) :=
  if s.isPrefixOf input then some (input.drop s.length, s) else none

/-- nom `char`: match one given character. -/
def charP (c : Char) (input : List Char) : Option (List Char × Char) :=
  match input with
  | [] => none
  | x :: rest => if x = c then some (rest, c) else none

/-- ASCII digit test (`character::complete::digit1`'s character class). -/
def isDigitCh (c : Char) : Bool := '0' ≤ c && c ≤ '9'

/-- nom `digit1` (complete): longest non-empty run of ASCII digits. -/
def digit1 (input : List Char) : Option (List Char × List Char) :=
  let ds := input.takeWhile isDigitCh
  if ds = [] then none else some (input.drop ds.length, ds)

/-- Numeric value of a digit string. -/
def digitsToNat (s : List Char) : Nat :=
  s.foldl (fun acc c => acc * 10 + (c.toNat - '0'.toNat)) 0

/-- Rust `str::parse::<u64>` on a digit-only string: fails iff the value
exceeds `u64::MAX`. -/
def parseU64 (s : List Char) : Option Nat :=
  let n := digitsToNat s
  if n < U64_MOD then some n else none

/-- Rust `str::parse::<i64>` on a digit-only (unsigned) string: fails iff the
value exceeds `i64::MAX`. -/
def parseI64Digits (s : List Char) : Option Int :=
  let n := digitsToNat s
  if (n : Int) ≤ I64_MAX then some (n : Int) else none

/-- Rust `str::parse::<i64>` on an optionally `-`-signed digit string. -/
def parseI64 (s : List Char) : Option Int :=
  match s with
  | '-' :: ds =>
      let n : Int := -((digitsToNat ds : Nat) : Int)
      if I64_MIN ≤ n then some n else none
  | ds =>
      let n : Int := ((digitsToNat ds : Nat) : Int)
      if n ≤ I64_MAX then some n else none

/-- `parse_counter`: `tag("c|")` then `map_res(digit1, into_u64)`. -/
def parse_counter (input : List Char) : Option (List Char × MetricKind) := do
  let (i, _) ← tagP "c|".toList input
  let (i, ds) ← digit1 i
  let v ← parseU64 ds
  pure (i, MetricKind.counter v)

/-- The resolution alternative of `parse_timing`, in source order
(`ns`, `ms`, `us`, `s`). -/
def timingResolution (input : List Char) : Option (List Char × TimerResolution) :=
  ((tagP "ns".toList input).map fun p => (p.1, TimerResolution.nanoSeconds)) <|>
  ((tagP "ms".toList input).map fun p => (p.1, TimerResolution.milliSeconds)) <|>
  ((tagP "us".toList input).map fun p => (p.1, TimerResolution.microSeconds)) <|>
  ((tagP "s".toList input).map fun p => (p.1, TimerResolution.seconds))

/-- First alternative of `parse_timing`: digits, `|`, explicit resolution. -/
def timingWithResolution (input : List Char) : Option (List Char × MetricKind) := do
  let (i, ds) ← digit1 input
  let v ← parseU64 ds
  let (i, _) ← charP '|' i
  let (i, r) ← timingResolution i
  pure (i, MetricKind.timing v r)

/-- Second alternative of `parse_timing`: bare digits default to milliseconds. -/
def timingDefaultMs (input : List Char) : Option (List Char × MetricKind) := do
  let (i, ds) ← digit1 input
  let v ← parseU64 ds
  pure (i, MetricKind.timing v TimerResolution.milliSeconds)

/-- `parse_timing`: `tag("t|")` then the two alternatives in source order. -/
def parse_timing (input : List Char) : Option (List Char × MetricKind) := do
  let (i, _) ← tagP "t|".toList input
  timingWithResolution i <|> timingDefaultMs i

/-- Gauge `Remove` alternative: `char('x')`. -/
def gaugeRemove (input : List Char) : Option (List Char × GaugeOperation) := do
  let (i, _) ← charP 'x' input
  pure (i, GaugeOperation.remove)

/-- `recognize(tuple((tag("-"), digit1)))`: the consumed `-digits` slice. -/
def recognizeNegDigits (input : List Char) : Option (List Char × List Char) := do
  let (i, _) ← tagP "-".toList input
  let (i2, ds) ← digit1 i
  pure (i2, '-' :: ds)

/-- Gauge `Set` alternative: signed or unsigned digits through `parse::<i64>`. -/
def gaugeSet (input : List Char) : Option (List Char × GaugeOperation) := do
  let (i, s) ← recognizeNegDigits input <|> digit1 input
  let v ← parseI64 s
  pure (i, GaugeOperation.set v)

/-- Gauge `Modify` alternative: `+`/`-`, `=`, digits, sign applied after. -/
def gaugeModify (input : List Char) : Option (List Char × GaugeOperation) := do
  let (i, sign) ← charP '+' input <|> charP '-' input
  let (i, _) ← charP '=' i
  let (i, ds) ← digit1 i
  let v ← parseI64Digits ds
  pure (i, GaugeOperation.modify (if sign = '+' then v else -v))

/-- `parse_gauge`: `tag("g|")` then the three alternatives in source order. -/
def parse_gauge (input : List Char) : Option (List Char × MetricKind) := do
  let (i, _) ← tagP "g|".toList input
  let (i, op) ← gaugeRemove i <|> gaugeSet i <|> gaugeModify i
  pure (i, MetricKind.gauge op)

/-- `parse_kind`: the three kind parsers in source order. -/
def parse_kind (input : List Char) : Option (List Char × MetricKind) :=
  parse_counter input <|> parse_timing input <|> parse_gauge input

/-- nom `is_not("|\\")` (complete): longest non-empty run of characters other
than `|` and `\`. -/
def isNotNameChars (input : List Char) : Option (List Char × List Char) :=
  let run := input.takeWhile fun c => c != '|' && c != '\\'
  if run = [] then none else some (input.drop run.length, run)

/-- The escape alternative of the source's `escaped_transform`:
`\\` transforms to `\`, `\|` transforms to `|` (the leading `\` is consumed
by the caller). -/
def escapeSeq (input : List Char) : Option (List Char × List Char) :=
  ((tagP ['\\'] input).map fun p => (p.1, ['\\'])) <|>
  ((tagP ['|'] input).map fun p => (p.1, ['|']))

/-- Loop of nom 7's `escaped_transform`, instantiated as in `parse_metric`:
alternate runs of plain name characters and escape sequences, accumulating the
transformed output.  `atStart` tracks nom's `index == 0`: when the normal
parser fails on the very first position at a character that is not the control
character, the whole combinator errors (so a name must consume at least one
character of a non-empty input).  A lone trailing `\` or a `\` followed by a
non-escapable character also error.  Each recursive call consumes input, so
`fuel = length + 1` never runs out. -/
def escapedTransformGo : Nat → Bool → List Char → List Char →
    Option (List Char × List Char)
  | 0, _, acc, remainder => some (remainder, acc)
  | fuel + 1, atStart, acc, remainder =>
    if remainder = [] then some (remainder, acc)
    else
      match isNotNameChars remainder with
      | some (i2, chunk) =>
          if i2 = [] then some ([], acc ++ chunk)
          else escapedTransformGo fuel false (acc ++ chunk) i2
      | none =>
          match remainder with
          | [] => some (remainder, acc)
          | c :: rest =>
              if c = '\\' then
                if rest = [] then none
                else
                  match escapeSeq rest with
                  | none => none
                  | some (i2, o) =>
                      if i2 = [] then some ([], acc ++ o)
                      else escapedTransformGo fuel false (acc ++ o) i2
              else
                if atStart then none
                else some (remainder, acc)

/-- The name parser of `parse_metric` (`escaped_transform(is_not("|\\"), '\\', …)`). -/
def escaped_transform (input : List Char) : Option (List Char × List Char) :=
  escapedTransformGo (input.length + 1) true [] input

/-- `parse_metric`: escaped name, `|` separator, then the kind. -/
def parse_metric (input : List Char) : Option (List Char × Metric) := do
  let (i, name) ← escaped_transform input
  let (i, _) ← charP '|' i
  let (i, kind) ← parse_kind i
  pure (i, { name := String.mk name, kind := kind })

/-- Loop of nom's `separated_list1(char('\n'), parse_metric)` after the first
element: on separator failure or element failure, stop and return what was
accumulated (the input position rolls back to before the separator).  The
separator always consumes one character, so nom's zero-consumption guard never
fires; each iteration consumes input, so `fuel = length` never runs out. -/
def sepList1Go : Nat → List Metric → List Char → List Char × List Metric
  | 0, acc, i => (i, acc)
  | fuel + 1, acc, i =>
    match charP '\n' i with
    | none => (i, acc)
    | some (i1, _) =>
        match parse_metric i1 with
        | none => (i, acc)
        | some (i2, m) => sepList1Go fuel (acc ++ [m]) i2

/-- nom `separated_list1(char('\n'), parse_metric)`: fails iff the first
element fails. -/
def separated_list1 (input : List Char) : Option (List Char × List Metric) :=
  match parse_metric input with
  | none => none
  | some (i, m) => some (sepList1Go input.length [m] i)

/-- `parse_protocol`: run the separated list and discard any unparsed rest; a
parse error collapses to the empty event sequence (`map_or_else`). -/
def parse_protocol (input : List Char) : List Metric :=
  match separated_list1 input with
  | none => []
  | some (_, ms) => ms

/-
Helper lemmas about the association-list map model.
-/

/-- Looking up the key just inserted yields the inserted value. -/
theorem alLookup_alInsert_self {α : Type} (m : List (String × α)) (k : String) (v : α) :
    alLookup (alInsert m k v) k = some v := by
  induction m with
  | nil => simp [alInsert, alLookup]
  | cons p rest ih =>
      obtain ⟨k1, w⟩ := p
      by_cases h : k1 = k
      · simp [alInsert, h, alLookup]
      · simp [alInsert, h, alLookup, ih]

/-- Inserting one key does not change lookups of another. -/
theorem alLookup_alInsert_ne {α : Type} (m : List (String × α)) (k key : String) (v : α)
    (h : k ≠ key) : alLookup (alInsert m k v) key = alLookup m key := by
  induction m with
  | nil => simp [alInsert, alLookup, h]
  | cons p rest ih =>
      obtain ⟨k1, w⟩ := p
      by_cases h1 : k1 = k
      · simp [alInsert, h1, alLookup, h]
      · simp [alInsert, h1, alLookup, ih]

/-- Re-inserting the value a key already maps to leaves the map unchanged. -/
theorem alInsert_lookup_self {α : Type} (m : List (String × α)) (k : String) (v : α)
    (h : alLookup m k = some v) : alInsert m k v = m := by
  induction m with
  | nil => simp [alLookup] at h
  | cons p rest ih =>
      obtain ⟨k1, w⟩ := p
      by_cases h1 : k1 = k
      · simp [alLookup, h1] at h
        simp [alInsert, h1, h]
      · simp [alLookup, h1] at h
        simp [alInsert, h1, ih h]

/-- A key that is not among the map's keys looks up to `none`. -/
theorem alLookup_eq_none_of_not_mem {α : Type} (m : List (String × α)) (k : String)
    (h : k ∉ m.map Prod.fst) : alLookup m k = none := by
  induction m with
  | nil => rfl
  | cons p rest ih =>
      obtain ⟨k1, w⟩ := p
      have h1 : ¬ k1 = k := fun hh => h (by simp [hh])
      have h2 : k ∉ rest.map Prod.fst := fun hh => h (by simp [hh])
      simp [alLookup, h1, ih h2]

/-- Every binding of `alInsert m k v` is a binding of `m` or the new one. -/
theorem mem_alInsert {α : Type} (m : List (String × α)) (k : String) (v : α)
    (p : String × α) (hp : p ∈ alInsert m k v) : p ∈ m ∨ p = (k, v) := by
  induction m with
  | nil => simp [alInsert] at hp; simp [hp]
  | cons q rest ih =>
      obtain ⟨k1, w⟩ := q
      by_cases h1 : k1 = k
      · simp [alInsert, h1] at hp
        rcases hp with h | h
        · right; simp [h]
        · left; simp [h]
      · simp [alInsert, h1] at hp
        rcases hp with h | h
        · left; simp [h]
        · rcases ih h with h2 | h2
          · left; simp [h2]
          · right; exact h2

/-
Claim theorems.
-/

/-- C7: `new_with_gauges` returns a fresh registry whose counters and timings
maps are empty and whose gauges map equals the original's; the model is pure
(`&self` in the source), so the original registry is untouched. -/
theorem C7_newWithGauges_fresh_with_gauges (r : Registry) :
    r.newWithGauges.counters = [] ∧ r.newWithGauges.timings = [] ∧
      r.newWithGauges.gauges = r.gauges :=
  ⟨rfl, rfl, rfl⟩

/-- C3 evaluated at a failing input: for `Timing(2^63, Seconds)` the source's
unchecked `u64` multiplication wraps modulo `2^64`; `add` returns `true` and
appends the wrapped product — it does not return `false` without mutation as
the claim states. -/
theorem C3_timing_overflow_wraps_and_returns_true :
    Registry.emptyReg.add { name := "t", kind := .timing (2 ^ 63) .seconds } =
      ({ counters := [], gauges := [],
         timings := [("t", [2 ^ 63 * 1000000000 % 2 ^ 64])] }, true) ∧
      2 ^ 63 * 1000000000 % 2 ^ 64 ≠ 2 ^ 63 * 1000000000 := by
  refine ⟨rfl, by decide⟩

/-- Projection of `StatResult` onto its success case. -/
def StatResult.toOption : StatResult → Option Statistics
  | .ok s => some s
  | _ => none

/-- C1 evaluated at a failing input: building `Statistics` from `[5]` succeeds,
but `percentile 1` computes `idx = min ⌊1 · 1⌋ 1 = 1` — the source clamps the
index with `.min(len)`, not `.min(len − 1)` — and `self.list[1]` is out of
bounds, a panic (`none`), instead of returning the maximum sample `5`. -/
theorem C1_percentile_one_panics :
    ((statisticsNew [5]).toOption.map fun s => s.percentile 1) = some none := by
  norm_num [statisticsNew, List.insertionSort, List.orderedInsert, checkedSum, U64_MOD,
    StatResult.toOption, Statistics.percentile, List.get?]

/-- C6 counterexample: the record `"|c|12"`, whose name would be empty, is
rejected — `parse_metric` fails and the whole payload yields no events —
rather than parsed as a metric with the empty string as its name. -/
theorem C6_counterexample_empty_name_rejected :
    parse_metric "|c|12".toList = none ∧ parse_protocol "|c|12".toList = [] :=
  ⟨rfl, rfl⟩

/-- C6 amended: a record whose first byte is the `|` separator always fails to
parse: nom's `escaped_transform` errors when its normal parser matches nothing
at the start of a non-empty input, so an empty name is rejected and no metric
event with an empty name is produced. -/
theorem C6_empty_name_record_always_fails (rest : List Char) :
    parse_metric ('|' :: rest) = none := rfl

/-- The separated-list loop only ever extends the already-accumulated list. -/
theorem sepList1Go_extends (fuel : Nat) (acc : List Metric) (i : List Char) :
    ∃ tl, (sepList1Go fuel acc i).2 = acc ++ tl := by
  induction fuel generalizing acc i with
  | zero => exact ⟨[], by simp [sepList1Go]⟩
  | succ n ih =>
      cases h1 : charP '\n' i with
      | none => exact ⟨[], by simp [sepList1Go, h1]⟩
      | some p =>
          obtain ⟨i1, c⟩ := p
          cases h2 : parse_metric i1 with
          | none => exact ⟨[], by simp [sepList1Go, h1, h2]⟩
          | some q =>
              obtain ⟨i2, m⟩ := q
              obtain ⟨tl, ht⟩ := ih (acc ++ [m]) i2
              exact ⟨m :: tl, by simp [sepList1Go, h1, h2, ht]⟩

/-- C2 counterexample: `"abc|c|12x"` carries trailing bytes (`x`) after a
valid record that are not a newline-delimited next record, yet
`parse_protocol` returns the parsed record — not the empty sequence. -/
theorem C2_counterexample_trailing_bytes :
    parse_protocol "abc|c|12x".toList = [{ name := "abc", kind := .counter 12 }] ∧
      parse_protocol "abc|c|12x".toList ≠ [] :=
  ⟨rfl, by decide⟩

/-- C2 amended: the payload collapses to the empty sequence exactly when its
*first* record fails to parse; a failure in a later record, or trailing bytes
after a valid record, merely stop accumulation and the successfully parsed
prefix is returned. -/
theorem C2_empty_iff_first_record_fails (input : List Char) :
    parse_protocol input = [] ↔ parse_metric input = none := by
  unfold parse_protocol separated_list1
  cases h : parse_metric input with
  | none => simp
  | some p =>
      obtain ⟨i, m⟩ := p
      obtain ⟨tl, ht⟩ := sepList1Go_extends input.length [m] i
      simp [ht]

/-- C4: for a `Gauge(Modify d)` event with `d` an `i64`: when the checked
addition of `d` to the current gauge value (default `0`) overflows `i64`,
`add` returns `false` and the registry — the stored value and every other
entry — is exactly as before the call; when it does not overflow, the gauge
becomes the old value plus `d` and `add` returns `true` (counters and timings
untouched). -/
theorem C4_gauge_modify_checked (r : Registry) (name : String) (d : Int)
    (hd : inI64 d) :
    (¬ inI64 ((alLookup r.gauges name).getD 0 + d) →
        r.add { name := name, kind := .gauge (.modify d) } = (r, false)) ∧
    (inI64 ((alLookup r.gauges name).getD 0 + d) →
        (r.add { name := name, kind := .gauge (.modify d) }).2 = true ∧
        alLookup (r.add { name := name, kind := .gauge (.modify d) }).1.gauges name
          = some ((alLookup r.gauges name).getD 0 + d) ∧
        (r.add { name := name, kind := .gauge (.modify d) }).1.counters = r.counters ∧
        (r.add { name := name, kind := .gauge (.modify d) }).1.timings = r.timings) := by
  rcases hl : alLookup r.gauges name with _ | g0
  · simp only [Registry.add, checkedAddI64, hl, Option.getD_none, zero_add]
    constructor
    · intro hover
      exact absurd hd hover
    · intro hok
      rw [if_pos hok]
      exact ⟨rfl, alLookup_alInsert_self _ _ _, rfl, rfl⟩
  · simp only [Registry.add, checkedAddI64, hl, Option.getD_some]
    constructor
    · intro hover
      rw [if_neg hover, alInsert_lookup_self r.gauges name g0 hl]
    · intro hok
      rw [if_pos hok]
      exact ⟨rfl, alLookup_alInsert_self _ _ _, rfl, rfl⟩

/-- Witness for C4: on a registry holding `i64::MAX` at `"g"`, `Modify 1`
overflows, `add` returns `false` and the registry is unchanged. -/
theorem C4_witness :
    ({ counters := [], gauges := [("g", I64_MAX)], timings := [] } : Registry).add
        { name := "g", kind := .gauge (.modify 1) } =
      ({ counters := [], gauges := [("g", I64_MAX)], timings := [] }, false) :=
  (C4_gauge_modify_checked _ "g" 1 (by decide)).1 (by decide)

/-- A successful `Gauge(Modify)` step writes old value (default 0) plus delta. -/
theorem add_modify_ok (r : Registry) (name : String) (d : Int)
    (h : inI64 ((alLookup r.gauges name).getD 0 + d)) :
    (r.add { name := name, kind := .gauge (.modify d) }).1.gauges
      = alInsert (alInsert r.gauges name ((alLookup r.gauges name).getD 0)) name
          ((alLookup r.gauges name).getD 0 + d) := by
  simp only [Registry.add, checkedAddI64]
  rw [if_pos h]

/-- C8: applying `Gauge(Modify a)` then `Gauge(Modify b)` to a name yields the
same final gauge value as a single `Gauge(Modify (a+b))` whenever no
intermediate checked sum (including the combined delta `a+b` itself) leaves
the `i64` range: both runs end with the old value plus `a + b`. -/
theorem C8_gauge_modify_composes (r : Registry) (name : String) (a b : Int)
    (hab : inI64 (a + b))
    (h1 : inI64 ((alLookup r.gauges name).getD 0 + a))
    (h2 : inI64 ((alLookup r.gauges name).getD 0 + a + b)) :
    alLookup ((r.add { name := name, kind := .gauge (.modify a) }).1.add
        { name := name, kind := .gauge (.modify b) }).1.gauges name
      = some ((alLookup r.gauges name).getD 0 + a + b) ∧
    alLookup (r.add { name := name, kind := .gauge (.modify (a + b)) }).1.gauges name
      = some ((alLookup r.gauges name).getD 0 + a + b) := by
  have l1 : alLookup (r.add { name := name, kind := .gauge (.modify a) }).1.gauges name
      = some ((alLookup r.gauges name).getD 0 + a) := by
    rw [add_modify_ok r name a h1]
    exact alLookup_alInsert_self _ _ _
  constructor
  · rw [add_modify_ok _ name b (by rw [l1]; simpa using h2), l1]
    simp only [Option.getD_some]
    exact alLookup_alInsert_self _ _ _
  · rw [add_modify_ok r name (a + b) (by rwa [add_assoc] at h2)]
    rw [alLookup_alInsert_self, add_assoc]

/-- Witness for C8: two `Modify`s of 1 and 2 on an empty registry agree with a
single `Modify 3`. -/
theorem C8_witness :
    alLookup ((Registry.emptyReg.add { name := "g", kind := .gauge (.modify 1) }).1.add
        { name := "g", kind := .gauge (.modify 2) }).1.gauges "g"
      = some ((alLookup Registry.emptyReg.gauges "g").getD 0 + 1 + 2) ∧
    alLookup (Registry.emptyReg.add
        { name := "g", kind := .gauge (.modify (1 + 2)) }).1.gauges "g"
      = some ((alLookup Registry.emptyReg.gauges "g").getD 0 + 1 + 2) :=
  C8_gauge_modify_composes Registry.emptyReg "g" 1 2 (by decide) (by decide) (by decide)

/-- Two lists that are permutations of each other have the same ascending
sort: the sorted permutation of a list of naturals is unique. -/
theorem insertionSort_perm_eq (l l2 : List Nat) (h : l.Perm l2) :
    l.insertionSort (· ≤ ·) = l2.insertionSort (· ≤ ·) := by
  apply List.eq_of_perm_of_sorted (r := (· ≤ ·))
  · exact (List.perm_insertionSort _ l).trans (h.trans (List.perm_insertionSort _ l2).symm)
  · exact List.sorted_insertionSort _ l
  · exact List.sorted_insertionSort _ l2

/-- C9: building Statistics from a sample list and from any permutation of it
gives identical results — both runs fail on sum overflow, or both succeed with
the same sorted list, sum and deviation fold, hence equal `sum`, `count`,
`average`, `std`, `median` and `percentile p` for every `p` (each is a
function of the structure). -/
theorem C9_statistics_perm_invariant (l l2 : List Nat) (h : l.Perm l2) :
    statisticsNew l = statisticsNew l2 := by
  by_cases hnil : l = []
  · subst hnil
    rw [h.symm.eq_nil]
  · have hnil2 : l2 ≠ [] := fun hh => hnil (by rw [hh] at h; exact h.eq_nil)
    unfold statisticsNew
    rw [if_neg hnil, if_neg hnil2, insertionSort_perm_eq l l2 h]

/-- Witness for C9 on a concrete permutation pair. -/
theorem C9_witness : statisticsNew [2, 1] = statisticsNew [1, 2] :=
  C9_statistics_perm_invariant [2, 1] [1, 2] (by decide)

/-- Ingest a sequence of metric events with `Registry.add` (the returned
flags do not stop ingestion). -/
def applyAll (r : Registry) (ms : List Metric) : Registry :=
  ms.foldl (fun acc m => (acc.add m).1) r

/-- Every sample list stored in the registry's counters and timings maps is
non-empty. -/
def samplesNonEmpty (r : Registry) : Prop :=
  (∀ p ∈ r.counters, p.2 ≠ ([] : List Nat)) ∧ (∀ p ∈ r.timings, p.2 ≠ ([] : List Nat))

/-- `pushSample` preserves non-emptiness of all stored sample lists: an entry
is created only together with its first sample. -/
theorem pushSample_nonEmpty (m : List (String × List Nat)) (name : String) (v : Nat)
    (hm : ∀ p ∈ m, p.2 ≠ ([] : List Nat)) :
    ∀ p ∈ pushSample m name v, p.2 ≠ ([] : List Nat) := by
  intro p hp
  rcases mem_alInsert _ _ _ p hp with h | h
  · exact hm p h
  · rw [h]
    simp

/-- `Registry.add` preserves the non-emptiness invariant. -/
theorem add_preserves_samplesNonEmpty (r : Registry) (m : Metric)
    (h : samplesNonEmpty r) : samplesNonEmpty (r.add m).1 := by
  obtain ⟨hc, ht⟩ := h
  obtain ⟨name, k⟩ := m
  cases k with
  | counter v => exact ⟨pushSample_nonEmpty _ _ _ hc, ht⟩
  | timing v res => exact ⟨hc, pushSample_nonEmpty _ _ _ ht⟩
  | gauge op =>
      cases op with
      | set v => exact ⟨hc, ht⟩
      | remove => exact ⟨hc, ht⟩
      | modify d =>
          simp only [Registry.add]
          cases checkedAddI64 ((alLookup r.gauges name).getD 0) d with
          | none => exact ⟨hc, ht⟩
          | some res => exact ⟨hc, ht⟩

/-- The invariant holds for every registry reachable by `add` from a start
registry with empty counters and timings. -/
theorem applyAll_preserves_samplesNonEmpty (r : Registry) (ms : List Metric)
    (h : samplesNonEmpty r) : samplesNonEmpty (applyAll r ms) := by
  induction ms generalizing r with
  | nil => exact h
  | cons m rest ih => exact ih _ (add_preserves_samplesNonEmpty r m h)

/-- `Statistics::new` panics only on the empty list. -/
theorem statisticsNew_ne_panicked (l : List Nat) (h : l ≠ []) :
    statisticsNew l ≠ .panicked := by
  unfold statisticsNew
  rw [if_neg h]
  cases hcs : checkedSum 0 (l.insertionSort (· ≤ ·)) <;> simp [hcs]

/-- The statistics fold succeeds when all series are non-empty. -/
theorem buildStatsGo_isSome (entries : List (String × List Nat))
    (acc : List (String × Statistics)) (h : ∀ p ∈ entries, p.2 ≠ ([] : List Nat)) :
    (buildStatsGo acc entries).isSome = true := by
  induction entries generalizing acc with
  | nil => rfl
  | cons e rest ih =>
      obtain ⟨name, l⟩ := e
      have hl : l ≠ [] := h (name, l) (by simp)
      have hrest : ∀ p ∈ rest, p.2 ≠ ([] : List Nat) := fun p hp => h p (by simp [hp])
      unfold buildStatsGo
      cases hs : statisticsNew l with
      | panicked => exact absurd hs (statisticsNew_ne_panicked l hl)
      | overflowErr => exact ih _ hrest
      | ok s => exact ih _ hrest

/-- C10: from a start registry whose counters and timings are empty
(`Registry::default()` and `new_with_gauges()` both produce one), any sequence
of `add` calls keeps every stored sample list non-empty, and `finalize`
therefore always produces a time frame — the `assert!(!list.is_empty())`
inside `Statistics::new` never fires. -/
theorem C10_finalize_never_asserts (start : Registry) (hc : start.counters = [])
    (ht : start.timings = []) (ms : List Metric) :
    samplesNonEmpty (applyAll start ms) ∧
      ((applyAll start ms).finalize).isSome = true := by
  have hinv : samplesNonEmpty (applyAll start ms) :=
    applyAll_preserves_samplesNonEmpty start ms ⟨by rw [hc]; simp, by rw [ht]; simp⟩
  refine ⟨hinv, ?_⟩
  unfold Registry.finalize TimeFrame.tryFrom buildStats
  have h1 := buildStatsGo_isSome (applyAll start ms).counters [] hinv.1
  have h2 := buildStatsGo_isSome (applyAll start ms).timings [] hinv.2
  cases hc1 : buildStatsGo [] (applyAll start ms).counters with
  | none => rw [hc1] at h1; simp at h1
  | some cs =>
      cases hc2 : buildStatsGo [] (applyAll start ms).timings with
      | none => rw [hc2] at h2; simp at h2
      | some ts => simp [hc1, hc2]

/-- Witness for C10 on a concrete event sequence from the default registry. -/
theorem C10_witness :
    samplesNonEmpty (applyAll Registry.emptyReg [{ name := "a", kind := .counter 3 }]) ∧
      ((applyAll Registry.emptyReg [{ name := "a", kind := .counter 3 }]).finalize).isSome
        = true :=
  C10_finalize_never_asserts Registry.emptyReg rfl rfl _

/-- The keys of an association-list map are distinct (as in a `HashMap`). -/
def keysNodup {α : Type} (m : List (String × α)) : Prop := (m.map Prod.fst).Nodup

instance {α : Type} (m : List (String × α)) : Decidable (keysNodup m) := by
  unfold keysNodup; infer_instance

/-- Lookup specification of the statistics fold over a map with distinct keys
and non-empty series: a name maps to its series' statistics when construction
succeeds, and falls through to the accumulator when the series overflowed or
the name is absent. -/
theorem buildStatsGo_lookup (entries : List (String × List Nat))
    (acc : List (String × Statistics))
    (hnd : keysNodup entries) (hne : ∀ p ∈ entries, p.2 ≠ ([] : List Nat)) :
    ∃ m, buildStatsGo acc entries = some m ∧ ∀ name,
      alLookup m name =
        match alLookup entries name with
        | some l =>
            match statisticsNew l with
            | .ok s => some s
            | _ => alLookup acc name
        | none => alLookup acc name := by
  induction entries generalizing acc with
  | nil => exact ⟨acc, rfl, fun name => rfl⟩
  | cons e rest ih =>
      obtain ⟨k, l⟩ := e
      have hcons : k ∉ rest.map Prod.fst ∧ (rest.map Prod.fst).Nodup := by
        have h0 := hnd
        unfold keysNodup at h0
        rw [show ((k, l) :: rest).map Prod.fst = k :: rest.map Prod.fst from rfl,
          List.nodup_cons] at h0
        exact h0
      have hk : k ∉ rest.map Prod.fst := hcons.1
      have hnd2 : keysNodup rest := hcons.2
      have hl : l ≠ [] := hne (k, l) (by simp)
      have hne2 : ∀ p ∈ rest, p.2 ≠ ([] : List Nat) := fun p hp => hne p (by simp [hp])
      cases hs : statisticsNew l with
      | panicked => exact absurd hs (statisticsNew_ne_panicked l hl)
      | overflowErr =>
          obtain ⟨m, hm, hlook⟩ := ih acc hnd2 hne2
          refine ⟨m, ?_, ?_⟩
          · unfold buildStatsGo
            rw [hs]
            exact hm
          · intro name
            by_cases hkey : k = name
            · subst hkey
              rw [hlook k, alLookup_eq_none_of_not_mem rest k hk]
              simp [alLookup, hs]
            · rw [hlook name]
              simp [alLookup, hkey]
      | ok s =>
          obtain ⟨m, hm, hlook⟩ := ih (alInsert acc k s) hnd2 hne2
          refine ⟨m, ?_, ?_⟩
          · unfold buildStatsGo
            rw [hs]
            exact hm
          · intro name
            by_cases hkey : k = name
            · subst hkey
              rw [hlook k, alLookup_eq_none_of_not_mem rest k hk]
              simp [alLookup, hs, alLookup_alInsert_self]
            · rw [hlook name]
              cases hr : alLookup rest name with
              | none => simp [alLookup, hkey, hr, alLookup_alInsert_ne _ _ _ _ hkey]
              | some l2 =>
                  cases hs2 : statisticsNew l2 <;>
                    simp [alLookup, hkey, hr, hs2, alLookup_alInsert_ne _ _ _ _ hkey]

/-- The published statistics of one series: `none` when the sum overflowed
(that name is skipped). -/
def statsOf (l : List Nat) : Option Statistics :=
  match statisticsNew l with
  | .ok s => some s
  | _ => none

/-- C5: finalizing a registry (distinct keys, non-empty sample lists) always
yields a time frame whose gauges are the registry's verbatim and in which each
counters/timings name maps to its series' statistics exactly when the checked
`u64` sum did not overflow; an overflowing series is silently absent. -/
theorem C5_finalize_skips_overflow (r : Registry)
    (hndc : keysNodup r.counters) (hndt : keysNodup r.timings)
    (hnec : ∀ p ∈ r.counters, p.2 ≠ ([] : List Nat))
    (hnet : ∀ p ∈ r.timings, p.2 ≠ ([] : List Nat)) :
    ∃ tf, r.finalize = some tf ∧ tf.gauges = r.gauges ∧
      (∀ name, alLookup tf.counters name = (alLookup r.counters name).bind statsOf) ∧
      (∀ name, alLookup tf.timings name = (alLookup r.timings name).bind statsOf) := by
  obtain ⟨mc, hmc, hlc⟩ := buildStatsGo_lookup r.counters [] hndc hnec
  obtain ⟨mt, hmt, hlt⟩ := buildStatsGo_lookup r.timings [] hndt hnet
  refine ⟨{ counters := mc, gauges := r.gauges, timings := mt }, ?_, rfl, ?_, ?_⟩
  · unfold Registry.finalize TimeFrame.tryFrom buildStats
    rw [hmc, hmt]
  · intro name
    rw [hlc name]
    cases hr : alLookup r.counters name with
    | none => rfl
    | some l => cases hs : statisticsNew l <;> simp [statsOf, hs, alLookup]
  · intro name
    rw [hlt name]
    cases hr : alLookup r.timings name with
    | none => rfl
    | some l => cases hs : statisticsNew l <;> simp [statsOf, hs, alLookup]

/-- Witness for C5: a registry with one overflowing counter series, one
regular one, and a gauge. -/
theorem C5_witness :
    ∃ tf, (Registry.mk [("a", [2 ^ 63, 2 ^ 63]), ("b", [1])] [("g", 5)] []).finalize
        = some tf ∧
      tf.gauges = (Registry.mk [("a", [2 ^ 63, 2 ^ 63]), ("b", [1])] [("g", 5)] []).gauges ∧
      (∀ name, alLookup tf.counters name =
        (alLookup (Registry.mk [("a", [2 ^ 63, 2 ^ 63]), ("b", [1])] [("g", 5)] []).counters
          name).bind statsOf) ∧
      (∀ name, alLookup tf.timings name =
        (alLookup (Registry.mk [("a", [2 ^ 63, 2 ^ 63]), ("b", [1])] [("g", 5)] []).timings
          name).bind statsOf) :=
  C5_finalize_skips_overflow _ (by decide) (by decide) (by decide) (by decide)
